import Mathlib

/-!
Verification of the candidate deduplication/matching core of the
Candidate-Database repository (file `Maryland/src/deduplication.py`,
class `CandidateMatcher`, together with the thresholds from
`Maryland/src/config.py`).

Modelling conventions:
* Python floats are modelled as exact rationals (`ℚ`); every score the code
  computes is a small rational, and the weights 0.6 / 0.3 / 0.4 / 0.5 are
  modelled as the exact fractions 6/10, 3/10, 4/10, 1/2.
* Python dicts / pydantic models become Lean structures.  Optional fields
  become `Option`, and Python truthiness of an optional value is modelled by
  `natTruthy` / `strTruthy` (None, 0 and "" are falsy).
* The third-party similarity function `fuzz.ratio` is injected as an explicit
  parameter `sim : String → String → ℚ`, mirroring the spec's design note
  that the string-similarity function is an injectable capability.  A
  concrete executable model `fuzzRatioQ` (spec-modelled, see below) is used
  to instantiate witnesses and counterexamples.
* Loops with early return / accumulator variables become structural
  recursions over the candidate pool carrying the accumulator.
-/

/-- Existing candidate from the database (pydantic model `DatabaseCandidate`
in `Maryland/src/models.py`); the UUID id is modelled as a `Nat`. -/
structure DatabaseCandidate where
  id : Nat
  full_name : String
  first_name : Option String := none
  last_name : Option String := none
  party : Option String := none
  office_level : Option String := none
  office_name : Option String := none
  ocd_division_id : Option String := none
  election_year : Option Nat := none
  status : Option String := none
  is_withdrawn : Bool := false
  external_ids : List (String × String) := []
deriving DecidableEq

/-- Incoming normalized candidate record (the `candidate` dict that the
matcher receives).  `full_name` and `office_name` are required by the data
model; the remaining match-relevant fields are optional. -/
structure Candidate where
  full_name : String
  first_name : Option String := none
  last_name : Option String := none
  party : Option String := none
  office_level : Option String := none
  office_name : String
  district_number : Option String := none
  election_year : Option Nat := none
deriving DecidableEq

/-- Python truthiness of an optional integer (None and 0 are falsy). -/
def natTruthy : Option Nat → Bool
  | none => false
  | some n => n != 0

/-- Python truthiness of an optional string (None and the empty string are
falsy). -/
def strTruthy : Option String → Bool
  | none => false
  | some s => s != ""

/-- Python `str.lower`, restricted to ASCII (all witness data is ASCII). -/
def pyLower (s : String) : String := String.mk (s.data.map Char.toLower)

/-- Whitespace characters removed by Python `str.strip`. -/
def pyIsSpace (c : Char) : Bool :=
  c = ' ' || c = '\t' || c = '\n' || c = '\r' || c = Char.ofNat 11 || c = Char.ofNat 12

/-- Python `str.strip`: drop whitespace from both ends. -/
def pyStrip (s : String) : String :=
  String.mk (((s.data.dropWhile pyIsSpace).reverse.dropWhile pyIsSpace).reverse)

/-- `CandidateMatcher.normalize_string` on a present string:
`if not s: return ""` then `s.lower().strip()`. -/
def normalize_string (s : String) : String :=
  if s = "" then "" else pyStrip (pyLower s)

/-- `CandidateMatcher.normalize_string` applied to an optional field
(`None` normalizes to the empty string). -/
def normalize_opt : Option String → String
  | none => ""
  | some s => normalize_string s

/-- Python substring test `needle in haystack` (on the raw strings). -/
def isSubstrOf (needle haystack : String) : Bool :=
  (List.range (haystack.data.length + 1)).any fun i =>
    needle.data.isPrefixOf (haystack.data.drop i)

/-- Length of a longest common subsequence; helper for the inner recursion:
`lcsAux a fas l2` computes the LCS length of `a :: as` and `l2`, where `fas`
computes LCS lengths against `as`. -/
def lcsAux (a : Char) (fas : List Char → Nat) : List Char → Nat
  | [] => 0
  | b :: bs =>
    if a = b then fas bs + 1
    else max (fas (b :: bs)) (lcsAux a fas bs)

/-- Length of a longest common subsequence of two character lists. -/
def lcsLen : List Char → List Char → Nat
  | [] => fun _ => 0
  | a :: as => lcsAux a (lcsLen as)

/-- Modelled from the spec: the third-party similarity `fuzz.ratio` from the
`fuzzywuzzy` package (not part of this repository's sources).  The spec
describes it as a "string-similarity ratio (0-100) between normalized
strings (e.g., Levenshtein-ratio based)".  `fuzz.ratio a b` is
`round(100 * (|a| + |b| - D) / (|a| + |b|))` where `D` is the edit distance
with substitution cost 2, i.e. `|a| + |b| - 2·LCS(a,b)`; rounding is
modelled as round-half-up.  Two empty strings get ratio 100. -/
def fuzzRatioN (a b : String) : Nat :=
  if a.data.length + b.data.length = 0 then 100
  else (400 * lcsLen a.data b.data + (a.data.length + b.data.length)) /
    (2 * (a.data.length + b.data.length))

/-- The injectable similarity instantiated with the `fuzz.ratio` model. -/
def fuzzRatioQ (a b : String) : ℚ := (fuzzRatioN a b : ℚ)

/-- `EXACT_MATCH_THRESHOLD` from `Maryland/src/config.py`. -/
def EXACT_MATCH_THRESHOLD : ℚ := 100

/-- `HIGH_CONFIDENCE_THRESHOLD` from `Maryland/src/config.py`. -/
def HIGH_CONFIDENCE_THRESHOLD : ℚ := 95

/-- `REVIEW_THRESHOLD` from `Maryland/src/config.py`. -/
def REVIEW_THRESHOLD : ℚ := 85

/-- `CandidateMatcher.match_by_external_id`: for Maryland data there are no
persistent external IDs, so this strategy unconditionally returns `None`. -/
def match_by_external_id (_pool : List DatabaseCandidate) (_cand : Candidate) :
    Option (DatabaseCandidate × ℚ) :=
  none

/-- The party-match factor computed inside `match_by_name_and_office`:
1.0 unless both parties are specified (candidate side already normalized,
existing side raw-truthy) and differ after normalization, in which case 0.5. -/
def party_match_val (cparty : String) (e : DatabaseCandidate) : ℚ :=
  if cparty ≠ "" ∧ strTruthy e.party then
    if cparty ≠ normalize_opt e.party then (1 / 2 : ℚ) else 1
  else 1

/-- The `combined_score` of `match_by_name_and_office` for one existing
candidate: `(name_score * 0.6 + office_score * 0.3) * party_match`. -/
def mbnoCombined (sim : String → String → ℚ) (cname coffice cparty : String)
    (e : DatabaseCandidate) : ℚ :=
  (sim cname (normalize_string e.full_name) * (6 / 10 : ℚ) +
    sim coffice (normalize_opt e.office_name) * (3 / 10 : ℚ)) * party_match_val cparty e

/-- The scanning loop of `CandidateMatcher.match_by_name_and_office`,
carrying the `best_match` / `best_score` accumulators.  `cname`, `coffice`,
`cparty` are the already-normalized candidate fields, `cyear` the raw
election year. -/
def mbnoLoop (sim : String → String → ℚ) (cname coffice : String)
    (cyear : Option Nat) (cparty : String) :
    List DatabaseCandidate → Option DatabaseCandidate → ℚ →
      Option (DatabaseCandidate × ℚ)
  | [], best, best_score =>
    match best with
    | some b => if REVIEW_THRESHOLD ≤ best_score then some (b, best_score) else none
    | none => none
  | e :: rest, best, best_score =>
    if natTruthy cyear ∧ natTruthy e.election_year ∧ cyear ≠ e.election_year then
      mbnoLoop sim cname coffice cyear cparty rest best best_score
    else
      if sim cname (normalize_string e.full_name) < 70 then
        mbnoLoop sim cname coffice cyear cparty rest best best_score
      else
        if sim cname (normalize_string e.full_name) = 100 ∧
            sim coffice (normalize_opt e.office_name) = 100 ∧
            party_match_val cparty e = 1 then
          some (e, EXACT_MATCH_THRESHOLD)
        else if mbnoCombined sim cname coffice cparty e > best_score then
          mbnoLoop sim cname coffice cyear cparty rest (some e)
            (mbnoCombined sim cname coffice cparty e)
        else
          mbnoLoop sim cname coffice cyear cparty rest best best_score

/-- `CandidateMatcher.match_by_name_and_office`. -/
def match_by_name_and_office (sim : String → String → ℚ)
    (pool : List DatabaseCandidate) (cand : Candidate) :
    Option (DatabaseCandidate × ℚ) :=
  mbnoLoop sim (normalize_string cand.full_name) (normalize_string cand.office_name)
    cand.election_year (normalize_opt cand.party) pool none 0

/-- The `first_name_score` of `match_by_fuzzy_name`: similarity of the two
normalized first names, forced up to at least 85 when the leading characters
agree and one of them is a single-character initial; 0 when either first
name is empty. -/
def first_name_score_val (sim : String → String → ℚ) (cfirst efirst : String) : ℚ :=
  if cfirst ≠ "" ∧ efirst ≠ "" then
    if cfirst.front = efirst.front ∧ (cfirst.length = 1 ∨ efirst.length = 1) then
      max (sim cfirst efirst) 85
    else sim cfirst efirst
  else 0

/-- The `context_score` of `match_by_fuzzy_name`: +50 for matching
normalized office levels, +50 when the district number occurs as a
substring of the existing candidate's OCD division id. -/
def context_score_val (clevel : String) (cdistrict : Option String)
    (e : DatabaseCandidate) : ℚ :=
  (if clevel = normalize_opt e.office_level then 50 else 0) +
  (if strTruthy cdistrict ∧ strTruthy e.ocd_division_id ∧
      isSubstrOf (cdistrict.getD "") (e.ocd_division_id.getD "") then 50 else 0)

/-- The `combined_score` of `match_by_fuzzy_name` for one existing
candidate: `last*0.4 + first*0.3 + context*0.3`. -/
def mbfnCombined (sim : String → String → ℚ) (cfirst clast : String)
    (cdistrict : Option String) (clevel : String) (e : DatabaseCandidate) : ℚ :=
  sim clast (normalize_opt e.last_name) * (4 / 10 : ℚ) +
  first_name_score_val sim cfirst (normalize_opt e.first_name) * (3 / 10 : ℚ) +
  context_score_val clevel cdistrict e * (3 / 10 : ℚ)

/-- The scanning loop of `CandidateMatcher.match_by_fuzzy_name`.  `cfirst`,
`clast`, `clevel` are the already-normalized candidate fields, `cdistrict`
the raw district number. -/
def mbfnLoop (sim : String → String → ℚ) (cfirst clast : String)
    (cdistrict : Option String) (clevel : String) :
    List DatabaseCandidate → Option DatabaseCandidate → ℚ →
      Option (DatabaseCandidate × ℚ)
  | [], best, best_score =>
    match best with
    | some b => if REVIEW_THRESHOLD ≤ best_score then some (b, best_score) else none
    | none => none
  | e :: rest, best, best_score =>
    if normalize_opt e.last_name = "" then
      mbfnLoop sim cfirst clast cdistrict clevel rest best best_score
    else
      if sim clast (normalize_opt e.last_name) < 85 then
        mbfnLoop sim cfirst clast cdistrict clevel rest best best_score
      else
        if mbfnCombined sim cfirst clast cdistrict clevel e > best_score then
          mbfnLoop sim cfirst clast cdistrict clevel rest (some e)
            (mbfnCombined sim cfirst clast cdistrict clevel e)
        else
          mbfnLoop sim cfirst clast cdistrict clevel rest best best_score

/-- `CandidateMatcher.match_by_fuzzy_name`. -/
def match_by_fuzzy_name (sim : String → String → ℚ)
    (pool : List DatabaseCandidate) (cand : Candidate) :
    Option (DatabaseCandidate × ℚ) :=
  if normalize_opt cand.last_name = "" then none
  else
    mbfnLoop sim (normalize_opt cand.first_name) (normalize_opt cand.last_name)
      cand.district_number (normalize_opt cand.office_level) pool none 0

/-- Result of `CandidateMatcher.find_match`: the tuple
`(matched_candidate, confidence, match_method)`. -/
structure MatchResult where
  matched : Option DatabaseCandidate
  confidence : ℚ
  method : String
deriving DecidableEq

/-- `CandidateMatcher.find_match`: the strategy cascade. -/
def find_match (sim : String → String → ℚ) (pool : List DatabaseCandidate)
    (cand : Candidate) : MatchResult :=
  match match_by_external_id pool cand with
  | some m => { matched := some m.1, confidence := m.2, method := "external_id" }
  | none =>
    match match_by_name_and_office sim pool cand with
    | some (b, cb) =>
      if HIGH_CONFIDENCE_THRESHOLD ≤ cb then
        { matched := some b, confidence := cb, method := "name_office_exact" }
      else
        match match_by_fuzzy_name sim pool cand with
        | some (f, cf) =>
          if cb > cf then
            { matched := some b, confidence := cb, method := "name_office" }
          else
            { matched := some f, confidence := cf, method := "fuzzy_name" }
        | none => { matched := some b, confidence := cb, method := "name_office" }
    | none =>
      match match_by_fuzzy_name sim pool cand with
      | some (f, cf) => { matched := some f, confidence := cf, method := "fuzzy_name" }
      | none => { matched := none, confidence := 0, method := "no_match" }

/-- The `match_info` annotation attached to a matched candidate in
`process_candidates`. -/
structure MatchInfo where
  candidate_id : Nat
  confidence : ℚ
  method : String
  existing_name : String
deriving DecidableEq

/-- One entry of the categorized output: the original candidate plus the
`match_info` annotation (present exactly when a match was found). -/
structure ProcessedItem where
  candidate : Candidate
  match_info : Option MatchInfo
deriving DecidableEq

/-- The four bucket lists returned by `process_candidates`. -/
structure Buckets where
  new : List ProcessedItem
  update : List ProcessedItem
  review : List ProcessedItem
  skip : List ProcessedItem
deriving DecidableEq

/-- Build the processed item for one candidate from its match result
(`candidate_data['match_info'] = {...}` when a match was found). -/
def mkItem (cand : Candidate) (r : MatchResult) : ProcessedItem :=
  match r.matched with
  | some m =>
    { candidate := cand,
      match_info := some
        { candidate_id := m.id, confidence := r.confidence,
          method := r.method, existing_name := m.full_name } }
  | none => { candidate := cand, match_info := none }

/-- `CandidateMatcher.process_candidates`: run `find_match` on every batch
entry and partition into the four buckets. -/
def process_candidates (sim : String → String → ℚ) (pool : List DatabaseCandidate) :
    List Candidate → Buckets
  | [] => { new := [], update := [], review := [], skip := [] }
  | c :: rest =>
    let r := find_match sim pool c
    let b := process_candidates sim pool rest
    match r.matched with
    | some _ =>
      if HIGH_CONFIDENCE_THRESHOLD ≤ r.confidence then
        { b with update := mkItem c r :: b.update }
      else if REVIEW_THRESHOLD ≤ r.confidence then
        { b with review := mkItem c r :: b.review }
      else
        { b with new := mkItem c r :: b.new }
    | none => { b with new := mkItem c r :: b.new }

/-- Module-level `deduplicate_candidates` wrapper. -/
def deduplicate_candidates (sim : String → String → ℚ)
    (candidates : List Candidate) (existing : List DatabaseCandidate) : Buckets :=
  process_candidates sim existing candidates

/-- The bucket that `process_candidates` assigns to one candidate. -/
def bucketOf (sim : String → String → ℚ) (pool : List DatabaseCandidate)
    (cand : Candidate) : String :=
  let r := find_match sim pool cand
  match r.matched with
  | some _ =>
    if HIGH_CONFIDENCE_THRESHOLD ≤ r.confidence then "update"
    else if REVIEW_THRESHOLD ≤ r.confidence then "review"
    else "new"
  | none => "new"

/-- The condition under which the scan of `match_by_name_and_office` fires
the exact-match shortcut at candidate `e`: the election-year filter does not
skip `e`, both similarity scores are 100, and the party factor is 1. -/
def exactCond (sim : String → String → ℚ) (cname coffice : String)
    (cyear : Option Nat) (cparty : String) (e : DatabaseCandidate) : Prop :=
  ¬(natTruthy cyear ∧ natTruthy e.election_year ∧ cyear ≠ e.election_year) ∧
  sim cname (normalize_string e.full_name) = 100 ∧
  sim coffice (normalize_opt e.office_name) = 100 ∧
  party_match_val cparty e = 1

instance (sim : String → String → ℚ) (cname coffice : String)
    (cyear : Option Nat) (cparty : String) (e : DatabaseCandidate) :
    Decidable (exactCond sim cname coffice cyear cparty e) := by
  unfold exactCond; infer_instance

/-- `exactCond` expressed directly on an incoming candidate record. -/
def exactHit (sim : String → String → ℚ) (cand : Candidate)
    (e : DatabaseCandidate) : Prop :=
  exactCond sim (normalize_string cand.full_name) (normalize_string cand.office_name)
    cand.election_year (normalize_opt cand.party) e

instance (sim : String → String → ℚ) (cand : Candidate) (e : DatabaseCandidate) :
    Decidable (exactHit sim cand e) := by
  unfold exactHit; infer_instance

/-- Erase the `external_ids` field of an existing candidate (used to state
that external identifiers never influence matching). -/
def eraseExt (e : DatabaseCandidate) : DatabaseCandidate :=
  { e with external_ids := [] }

/-- The processed item that `process_candidates` produces for one
candidate. -/
def itemOf (sim : String → String → ℚ) (pool : List DatabaseCandidate)
    (c : Candidate) : ProcessedItem :=
  mkItem c (find_match sim pool c)

/-- Concrete incoming candidate realizing a Strategy B / Strategy C tie:
Strategy B scores (100*0.6 + 90*0.3) * 1 = 87 against `tieE`, Strategy C
scores 90*0.4 + 70*0.3 + 100*0.3 = 87 against the same pool entry. -/
def tieCand : Candidate :=
  { full_name := "annadoe", office_name := "abcdefghij",
    first_name := some ("abcdefghij"), last_name := some ("qrstuvwxyz"),
    office_level := some ("local"), district_number := some ("7") }

/-- Concrete pool entry for the tie scenario. -/
def tieE : DatabaseCandidate :=
  { id := 1, full_name := "annadoe", office_name := some ("abcdefghiz"),
    first_name := some ("abcdefgxyz"), last_name := some ("qrstuvwxyk"),
    office_level := some ("local"), ocd_division_id := some ("sen7a") }

/-- Concrete incoming candidate with name, office, party all matching the
pool entries below, election year 2026, and no first/last name. -/
def janeCand : Candidate :=
  { full_name := "jane doe", office_name := "state senate",
    party := some ("democratic"), election_year := some 2026 }

/-- Pool entry identical to `janeCand` except for the election year (2024):
skipped by the year filter before any similarity is computed. -/
def janeEOld : DatabaseCandidate :=
  { id := 2, full_name := "jane doe", office_name := some ("state senate"),
    party := some ("democratic"), election_year := some 2024 }

/-- Pool entry identical to `janeCand` with the matching year 2026. -/
def janeE : DatabaseCandidate :=
  { id := 3, full_name := "jane doe", office_name := some ("state senate"),
    party := some ("democratic"), election_year := some 2026 }

/-- Party-mismatch scenario, incoming side (no first/last name). -/
def maryCand : Candidate :=
  { full_name := "mary lee", office_name := "mayor", party := some ("republican") }

/-- Party-mismatch scenario, existing side. -/
def maryE : DatabaseCandidate :=
  { id := 4, full_name := "mary lee", office_name := some ("mayor"),
    party := some ("democratic") }

/-- Party-mismatch scenario with first/last names and district context
populated on the incoming side (lets Strategy C match). -/
def maryXCand : Candidate :=
  { full_name := "mary lee", first_name := some ("mary"), last_name := some ("lee"),
    office_name := "mayor", party := some ("republican"),
    office_level := some ("local"), district_number := some ("3") }

/-- Existing record for the named party-mismatch scenario. -/
def maryXE : DatabaseCandidate :=
  { id := 5, full_name := "mary lee", first_name := some ("mary"),
    last_name := some ("lee"), office_name := some ("mayor"),
    party := some ("democratic"), office_level := some ("local"),
    ocd_division_id := some ("county:3") }

/-- Incoming candidate whose full name is unrelated to `lowE` (similarity 0)
but identical to `goodE`. -/
def subCand : Candidate :=
  { full_name := "annadoe", office_name := "abcdefghij" }

/-- Pool entry whose name similarity with `subCand` is 0 (< 70) despite an
identical office name. -/
def lowE : DatabaseCandidate :=
  { id := 6, full_name := "zzzz", office_name := some ("abcdefghij") }

/-- Pool entry matched by `subCand` at combined score 87. -/
def goodE : DatabaseCandidate :=
  { id := 7, full_name := "annadoe", office_name := some ("abcdefghiz") }

theorem lcsLen_nil_left (l : List Char) : lcsLen [] l = 0 := rfl

theorem lcsLen_nil_right (l : List Char) : lcsLen l [] = 0 := by
  cases l <;> rfl

theorem lcsLen_cons_cons (a b : Char) (as bs : List Char) :
    lcsLen (a :: as) (b :: bs) =
      if a = b then lcsLen as bs + 1
      else max (lcsLen as (b :: bs)) (lcsLen (a :: as) bs) := rfl

theorem lcsLen_le_left (l1 l2 : List Char) : lcsLen l1 l2 ≤ l1.length := by
  induction l1 generalizing l2 with
  | nil => simp [lcsLen_nil_left]
  | cons a as ih =>
    induction l2 with
    | nil => simp [lcsLen_nil_right]
    | cons b bs ih2 =>
      rw [lcsLen_cons_cons]
      split
      · have := ih bs
        simp only [List.length_cons]
        omega
      · have h1 := ih (b :: bs)
        simp only [List.length_cons] at *
        omega

theorem lcsLen_le_right (l1 l2 : List Char) : lcsLen l1 l2 ≤ l2.length := by
  induction l2 generalizing l1 with
  | nil => simp [lcsLen_nil_right]
  | cons b bs ih =>
    induction l1 with
    | nil => simp [lcsLen_nil_left]
    | cons a as ih1 =>
      rw [lcsLen_cons_cons]
      split
      · have := ih as
        simp only [List.length_cons]
        omega
      · have h1 := ih (a :: as)
        simp only [List.length_cons] at *
        omega

theorem lcsLen_self (l : List Char) : lcsLen l l = l.length := by
  induction l with
  | nil => rfl
  | cons a as ih => simp [lcsLen_cons_cons, ih]

theorem fuzzRatioN_le_100 (a b : String) : fuzzRatioN a b ≤ 100 := by
  unfold fuzzRatioN
  split
  · exact le_refl 100
  · rename_i hs
    have h1 := lcsLen_le_left a.data b.data
    have h2 := lcsLen_le_right a.data b.data
    have hpos : 0 < 2 * (a.data.length + b.data.length) := by omega
    have : (400 * lcsLen a.data b.data + (a.data.length + b.data.length)) /
        (2 * (a.data.length + b.data.length)) < 101 := by
      rw [Nat.div_lt_iff_lt_mul hpos]
      omega
    omega

theorem fuzzRatioN_self (a : String) : fuzzRatioN a a = 100 := by
  unfold fuzzRatioN
  split
  · rfl
  · rename_i hs
    rw [lcsLen_self]
    have hn : 0 < a.data.length := by omega
    have heq : 400 * a.data.length + (a.data.length + a.data.length) =
        (a.data.length + a.data.length) + 2 * (a.data.length + a.data.length) * 100 := by
      ring
    rw [heq, Nat.add_mul_div_left _ _ (by omega : 0 < 2 * (a.data.length + a.data.length)),
      Nat.div_eq_of_lt (by omega)]

theorem fuzzRatioQ_nonneg (a b : String) : 0 ≤ fuzzRatioQ a b := by
  unfold fuzzRatioQ
  positivity

theorem fuzzRatioQ_le_100 (a b : String) : fuzzRatioQ a b ≤ 100 := by
  unfold fuzzRatioQ
  have := fuzzRatioN_le_100 a b
  exact_mod_cast this

theorem fuzzRatioQ_self (a : String) : fuzzRatioQ a a = 100 := by
  unfold fuzzRatioQ
  rw [fuzzRatioN_self]
  norm_num

/-- Any result of the `match_by_name_and_office` scan has confidence at
least `REVIEW_THRESHOLD`: the exact shortcut returns 100, and the final
check filters the tracked best score by `REVIEW_THRESHOLD`. -/
theorem mbnoLoop_some_conf (sim : String → String → ℚ) (cname coffice : String)
    (cyear : Option Nat) (cparty : String) :
    ∀ (l : List DatabaseCandidate) (best : Option DatabaseCandidate) (s : ℚ)
      (b : DatabaseCandidate) (c : ℚ),
      mbnoLoop sim cname coffice cyear cparty l best s = some (b, c) →
      REVIEW_THRESHOLD ≤ c := by
  intro l
  induction l with
  | nil =>
    intro best s b c h
    cases best with
    | none => simp [mbnoLoop] at h
    | some b0 =>
      simp only [mbnoLoop] at h
      split at h
      · rename_i hs
        simp only [Option.some.injEq, Prod.mk.injEq] at h
        rw [← h.2]
        exact hs
      · simp at h
  | cons e rest ih =>
    intro best s b c h
    simp only [mbnoLoop] at h
    split at h
    · exact ih best s b c h
    · split at h
      · exact ih best s b c h
      · split at h
        · simp only [Option.some.injEq, Prod.mk.injEq] at h
          rw [← h.2]
          norm_num [EXACT_MATCH_THRESHOLD, REVIEW_THRESHOLD]
        · split at h
          · exact ih _ _ b c h
          · exact ih best s b c h

theorem match_by_name_and_office_some_conf (sim : String → String → ℚ)
    (pool : List DatabaseCandidate) (cand : Candidate) (b : DatabaseCandidate) (c : ℚ)
    (h : match_by_name_and_office sim pool cand = some (b, c)) :
    REVIEW_THRESHOLD ≤ c :=
  mbnoLoop_some_conf sim _ _ _ _ pool none 0 b c h

theorem mbfnLoop_some_conf (sim : String → String → ℚ) (cfirst clast : String)
    (cdistrict : Option String) (clevel : String) :
    ∀ (l : List DatabaseCandidate) (best : Option DatabaseCandidate) (s : ℚ)
      (b : DatabaseCandidate) (c : ℚ),
      mbfnLoop sim cfirst clast cdistrict clevel l best s = some (b, c) →
      REVIEW_THRESHOLD ≤ c := by
  intro l
  induction l with
  | nil =>
    intro best s b c h
    cases best with
    | none => simp [mbfnLoop] at h
    | some b0 =>
      simp only [mbfnLoop] at h
      split at h
      · rename_i hs
        simp only [Option.some.injEq, Prod.mk.injEq] at h
        rw [← h.2]
        exact hs
      · simp at h
  | cons e rest ih =>
    intro best s b c h
    simp only [mbfnLoop] at h
    split at h
    · exact ih best s b c h
    · split at h
      · exact ih best s b c h
      · split at h
        · exact ih _ _ b c h
        · exact ih best s b c h

theorem match_by_fuzzy_name_some_conf (sim : String → String → ℚ)
    (pool : List DatabaseCandidate) (cand : Candidate) (b : DatabaseCandidate) (c : ℚ)
    (h : match_by_fuzzy_name sim pool cand = some (b, c)) :
    REVIEW_THRESHOLD ≤ c := by
  unfold match_by_fuzzy_name at h
  split at h
  · simp at h
  · exact mbfnLoop_some_conf sim _ _ _ _ pool none 0 b c h

theorem party_match_val_cases (cparty : String) (e : DatabaseCandidate) :
    party_match_val cparty e = 1 / 2 ∨ party_match_val cparty e = 1 := by
  unfold party_match_val
  split
  · split
    · left; rfl
    · right; rfl
  · right; rfl

/-- The combined-score formula of Strategy B is bounded by 90 whenever the
similarity scores lie in [0, 100]: the weights sum to 0.9 and the party
factor is at most 1. -/
theorem mbnoCombined_bound (sim : String → String → ℚ)
    (h0 : ∀ a b, 0 ≤ sim a b) (h100 : ∀ a b, sim a b ≤ 100)
    (cname coffice cparty : String) (e : DatabaseCandidate) :
    0 ≤ mbnoCombined sim cname coffice cparty e ∧
      mbnoCombined sim cname coffice cparty e ≤ 90 := by
  unfold mbnoCombined
  have hn0 := h0 cname (normalize_string e.full_name)
  have hn1 := h100 cname (normalize_string e.full_name)
  have ho0 := h0 coffice (normalize_opt e.office_name)
  have ho1 := h100 coffice (normalize_opt e.office_name)
  rcases party_match_val_cases cparty e with hp | hp <;> rw [hp] <;>
    constructor <;> linarith

theorem mbnoLoop_bound (sim : String → String → ℚ)
    (h0 : ∀ a b, 0 ≤ sim a b) (h100 : ∀ a b, sim a b ≤ 100)
    (cname coffice : String) (cyear : Option Nat) (cparty : String) :
    ∀ (l : List DatabaseCandidate) (best : Option DatabaseCandidate) (s : ℚ)
      (b : DatabaseCandidate) (c : ℚ),
      0 ≤ s → s ≤ 90 →
      mbnoLoop sim cname coffice cyear cparty l best s = some (b, c) →
      c ≤ 90 ∨ c = EXACT_MATCH_THRESHOLD := by
  intro l
  induction l with
  | nil =>
    intro best s b c hs0 hs90 h
    cases best with
    | none => simp [mbnoLoop] at h
    | some b0 =>
      simp only [mbnoLoop] at h
      split at h
      · simp only [Option.some.injEq, Prod.mk.injEq] at h
        left
        rw [← h.2]
        exact hs90
      · simp at h
  | cons e rest ih =>
    intro best s b c hs0 hs90 h
    simp only [mbnoLoop] at h
    split at h
    · exact ih best s b c hs0 hs90 h
    · split at h
      · exact ih best s b c hs0 hs90 h
      · split at h
        · simp only [Option.some.injEq, Prod.mk.injEq] at h
          right
          exact h.2.symm
        · split at h
          · have hb := mbnoCombined_bound sim h0 h100 cname coffice cparty e
            exact ih _ _ b c hb.1 hb.2 h
          · exact ih best s b c hs0 hs90 h

/-- The scan of Strategy B, entered at candidate `e` after a prefix without
exact hits, fires the exact-match shortcut at `e` and ignores the rest of
the pool. -/
theorem mbnoLoop_exact_first (sim : String → String → ℚ) (cname coffice : String)
    (cyear : Option Nat) (cparty : String) :
    ∀ (pre : List DatabaseCandidate) (e : DatabaseCandidate)
      (post : List DatabaseCandidate),
      (∀ x ∈ pre, ¬exactCond sim cname coffice cyear cparty x) →
      exactCond sim cname coffice cyear cparty e →
      ∀ (best : Option DatabaseCandidate) (s : ℚ),
        mbnoLoop sim cname coffice cyear cparty (pre ++ e :: post) best s =
          some (e, EXACT_MATCH_THRESHOLD) := by
  intro pre
  induction pre with
  | nil =>
    intro e post _ he best s
    obtain ⟨hy, hn, ho, hp⟩ := he
    simp only [List.nil_append, mbnoLoop]
    rw [if_neg hy, hn]
    rw [if_neg (by norm_num : ¬((100 : ℚ) < 70))]
    rw [ho, if_pos ⟨rfl, rfl, hp⟩]
  | cons x pre' ih =>
    intro e post hpre he best s
    have hx := hpre x (List.mem_cons_self x pre')
    have hpre' : ∀ y ∈ pre', ¬exactCond sim cname coffice cyear cparty y :=
      fun y hy => hpre y (List.mem_cons_of_mem _ hy)
    simp only [List.cons_append, mbnoLoop]
    by_cases h1 : natTruthy cyear ∧ natTruthy x.election_year ∧ cyear ≠ x.election_year
    · rw [if_pos h1]
      exact ih e post hpre' he best s
    · rw [if_neg h1]
      by_cases h2 : sim cname (normalize_string x.full_name) < 70
      · rw [if_pos h2]
        exact ih e post hpre' he best s
      · rw [if_neg h2]
        by_cases h3 : sim cname (normalize_string x.full_name) = 100 ∧
            sim coffice (normalize_opt x.office_name) = 100 ∧
            party_match_val cparty x = 1
        · exact absurd ⟨h1, h3.1, h3.2.1, h3.2.2⟩ hx
        · rw [if_neg h3]
          by_cases h4 : mbnoCombined sim cname coffice cparty x > s
          · rw [if_pos h4]
            exact ih e post hpre' he _ _
          · rw [if_neg h4]
            exact ih e post hpre' he best s

/-- `find_match` on a pool whose first exact hit is `e` returns `e` with
confidence `EXACT_MATCH_THRESHOLD` and method `name_office_exact`; the
pool tail after `e` is irrelevant. -/
theorem find_match_exact_first (sim : String → String → ℚ) (cand : Candidate)
    (pre : List DatabaseCandidate) (e : DatabaseCandidate)
    (post : List DatabaseCandidate)
    (hpre : ∀ x ∈ pre, ¬exactHit sim cand x) (he : exactHit sim cand e) :
    find_match sim (pre ++ e :: post) cand =
      { matched := some e, confidence := EXACT_MATCH_THRESHOLD,
        method := "name_office_exact" } := by
  have hB : match_by_name_and_office sim (pre ++ e :: post) cand =
      some (e, EXACT_MATCH_THRESHOLD) :=
    mbnoLoop_exact_first sim _ _ _ _ pre e post hpre he none 0
  simp only [find_match, match_by_external_id, hB]
  rw [if_pos (by norm_num [HIGH_CONFIDENCE_THRESHOLD, EXACT_MATCH_THRESHOLD])]

theorem exists_first_sat {α : Type} (P : α → Prop) :
    ∀ l : List α, (∃ x ∈ l, P x) →
      ∃ pre y post, l = pre ++ y :: post ∧ (∀ x ∈ pre, ¬P x) ∧ P y := by
  intro l
  induction l with
  | nil => simp
  | cons a t ih =>
    intro hex
    by_cases ha : P a
    · exact ⟨[], a, t, rfl, by simp, ha⟩
    · obtain ⟨x, hx, hPx⟩ := hex
      rcases List.mem_cons.mp hx with rfl | hxt
      · exact absurd hPx ha
      · obtain ⟨pre, y, post, heq, hpre, hy⟩ := ih ⟨x, hxt, hPx⟩
        refine ⟨a :: pre, y, post, by rw [heq, List.cons_append], ?_, hy⟩
        intro z hz
        rcases List.mem_cons.mp hz with rfl | hz2
        · exact ha
        · exact hpre z hz2

/-- If some pool candidate is an exact hit for the incoming candidate, then
`find_match` returns an exact hit with confidence `EXACT_MATCH_THRESHOLD`
and method `name_office_exact`. -/
theorem find_match_exact_exists (sim : String → String → ℚ)
    (pool : List DatabaseCandidate) (cand : Candidate)
    (hex : ∃ e ∈ pool, exactHit sim cand e) :
    ∃ e, exactHit sim cand e ∧
      find_match sim pool cand =
        { matched := some e, confidence := EXACT_MATCH_THRESHOLD,
          method := "name_office_exact" } := by
  obtain ⟨pre, y, post, rfl, hpre, hy⟩ := exists_first_sat _ pool hex
  exact ⟨y, hy, find_match_exact_first sim cand pre y post hpre hy⟩

/-- When Strategy B returns below `HIGH_CONFIDENCE_THRESHOLD` and Strategy C
also returns, `find_match` compares the scores with a strict `>` in favour
of B: B wins only strictly, ties go to C (`fuzzy_name`). -/
theorem find_match_both (sim : String → String → ℚ) (pool : List DatabaseCandidate)
    (cand : Candidate) (b f : DatabaseCandidate) (cb cf : ℚ)
    (hB : match_by_name_and_office sim pool cand = some (b, cb))
    (hlt : cb < HIGH_CONFIDENCE_THRESHOLD)
    (hC : match_by_fuzzy_name sim pool cand = some (f, cf)) :
    find_match sim pool cand =
      if cb > cf then { matched := some b, confidence := cb, method := "name_office" }
      else { matched := some f, confidence := cf, method := "fuzzy_name" } := by
  simp only [find_match, match_by_external_id, hB, hC]
  rw [if_neg (not_le.mpr hlt)]

theorem mkItem_candidate (c : Candidate) (r : MatchResult) :
    (mkItem c r).candidate = c := by
  unfold mkItem
  split <;> rfl

theorem itemOf_candidate (sim : String → String → ℚ)
    (pool : List DatabaseCandidate) (c : Candidate) :
    (itemOf sim pool c).candidate = c :=
  mkItem_candidate c (find_match sim pool c)

theorem map_candidate_itemOf (sim : String → String → ℚ)
    (pool : List DatabaseCandidate) (l : List Candidate) :
    (l.map (itemOf sim pool)).map (fun i => i.candidate) = l := by
  induction l with
  | nil => rfl
  | cons c t ih => simp [itemOf_candidate, ih]

/-- Characterization of `process_candidates`: each bucket is the in-order
filter of the batch by the bucket tag, mapped through `itemOf`, and `skip`
is always empty. -/
theorem process_eq (sim : String → String → ℚ) (pool : List DatabaseCandidate) :
    ∀ batch : List Candidate,
      process_candidates sim pool batch =
        { new := (batch.filter fun c => decide (bucketOf sim pool c = "new")).map
            (itemOf sim pool),
          update := (batch.filter fun c => decide (bucketOf sim pool c = "update")).map
            (itemOf sim pool),
          review := (batch.filter fun c => decide (bucketOf sim pool c = "review")).map
            (itemOf sim pool),
          skip := [] } := by
  intro batch
  induction batch with
  | nil => rfl
  | cons c rest ih =>
    simp only [process_candidates]
    cases hM : (find_match sim pool c).matched with
    | some m =>
      dsimp only
      by_cases h95 : HIGH_CONFIDENCE_THRESHOLD ≤ (find_match sim pool c).confidence
      · have hb : bucketOf sim pool c = "update" := by
          simp only [bucketOf]
          rw [hM]
          dsimp only
          rw [if_pos h95]
        rw [if_pos h95, ih]
        simp [List.filter_cons, hb, itemOf]
      · by_cases h85 : REVIEW_THRESHOLD ≤ (find_match sim pool c).confidence
        · have hb : bucketOf sim pool c = "review" := by
            simp only [bucketOf]
            rw [hM]
            dsimp only
            rw [if_neg h95, if_pos h85]
          rw [if_neg h95, if_pos h85, ih]
          simp [List.filter_cons, hb, itemOf]
        · have hb : bucketOf sim pool c = "new" := by
            simp only [bucketOf]
            rw [hM]
            dsimp only
            rw [if_neg h95, if_neg h85]
          rw [if_neg h95, if_neg h85, ih]
          simp [List.filter_cons, hb, itemOf]
    | none =>
      have hb : bucketOf sim pool c = "new" := by
        simp only [bucketOf]
        rw [hM]
      dsimp only
      rw [ih]
      simp [List.filter_cons, hb, itemOf]

/-- Every bucket tag is one of the three populated buckets. -/
theorem bucketOf_cases (sim : String → String → ℚ) (pool : List DatabaseCandidate)
    (c : Candidate) :
    bucketOf sim pool c = "new" ∨ bucketOf sim pool c = "update" ∨
      bucketOf sim pool c = "review" := by
  simp only [bucketOf]
  cases hM : (find_match sim pool c).matched with
  | some m =>
    dsimp only
    by_cases h95 : HIGH_CONFIDENCE_THRESHOLD ≤ (find_match sim pool c).confidence
    · rw [if_pos h95]
      right; left; rfl
    · rw [if_neg h95]
      by_cases h85 : REVIEW_THRESHOLD ≤ (find_match sim pool c).confidence
      · rw [if_pos h85]
        right; right; rfl
      · rw [if_neg h85]
        left; rfl
  | none => left; rfl

theorem three_filter_length {α : Type} (p q r : α → Bool)
    (h : ∀ x, (p x = true ∧ q x = false ∧ r x = false) ∨
      (p x = false ∧ q x = true ∧ r x = false) ∨
      (p x = false ∧ q x = false ∧ r x = true)) :
    ∀ l : List α,
      (l.filter p).length + (l.filter q).length + (l.filter r).length = l.length := by
  intro l
  induction l with
  | nil => rfl
  | cons a t ih =>
    rcases h a with ⟨h1, h2, h3⟩ | ⟨h1, h2, h3⟩ | ⟨h1, h2, h3⟩ <;>
      simp [List.filter_cons, h1, h2, h3] <;> omega

/-- Whenever `find_match` returns a matched candidate, the confidence is at
least `REVIEW_THRESHOLD`. -/
theorem find_match_conf_ge (sim : String → String → ℚ)
    (pool : List DatabaseCandidate) (cand : Candidate) (m : DatabaseCandidate)
    (h : (find_match sim pool cand).matched = some m) :
    REVIEW_THRESHOLD ≤ (find_match sim pool cand).confidence := by
  unfold find_match at *
  simp only [match_by_external_id] at *
  cases hB : match_by_name_and_office sim pool cand with
  | some p =>
    obtain ⟨b, cb⟩ := p
    have hcb := match_by_name_and_office_some_conf sim pool cand b cb hB
    dsimp only at h ⊢
    by_cases h95 : HIGH_CONFIDENCE_THRESHOLD ≤ cb
    · simp only [if_pos h95]
      exact hcb
    · simp only [if_neg h95] at h ⊢
      cases hC : match_by_fuzzy_name sim pool cand with
      | some q =>
        obtain ⟨f, cf⟩ := q
        have hcf := match_by_fuzzy_name_some_conf sim pool cand f cf hC
        dsimp only at h ⊢
        by_cases hgt : cb > cf
        · simp only [if_pos hgt]
          exact hcb
        · simp only [if_neg hgt]
          exact hcf
      | none => simpa using hcb
  | none =>
    dsimp only at h ⊢
    cases hC : match_by_fuzzy_name sim pool cand with
    | some q =>
      obtain ⟨f, cf⟩ := q
      have hcf := match_by_fuzzy_name_some_conf sim pool cand f cf hC
      simpa using hcf
    | none =>
      rw [hB, hC] at h
      simp at h

theorem mkItem_info_some (c : Candidate) (r : MatchResult) (m : DatabaseCandidate)
    (h : r.matched = some m) :
    (mkItem c r).match_info = some
      { candidate_id := m.id, confidence := r.confidence,
        method := r.method, existing_name := m.full_name } := by
  unfold mkItem
  rw [h]

theorem mkItem_info_none (c : Candidate) (r : MatchResult) (h : r.matched = none) :
    (mkItem c r).match_info = none := by
  unfold mkItem
  rw [h]

theorem bucketOf_update_inv (sim : String → String → ℚ)
    (pool : List DatabaseCandidate) (c : Candidate)
    (hb : bucketOf sim pool c = "update") :
    ∃ m, (find_match sim pool c).matched = some m ∧
      HIGH_CONFIDENCE_THRESHOLD ≤ (find_match sim pool c).confidence := by
  simp only [bucketOf] at hb
  split at hb
  · rename_i m hM
    split at hb
    · rename_i h95
      exact ⟨m, hM, h95⟩
    · split at hb
      · exact absurd hb (by decide)
      · exact absurd hb (by decide)
  · exact absurd hb (by decide)

theorem bucketOf_review_inv (sim : String → String → ℚ)
    (pool : List DatabaseCandidate) (c : Candidate)
    (hb : bucketOf sim pool c = "review") :
    ∃ m, (find_match sim pool c).matched = some m ∧
      REVIEW_THRESHOLD ≤ (find_match sim pool c).confidence ∧
      (find_match sim pool c).confidence < HIGH_CONFIDENCE_THRESHOLD := by
  simp only [bucketOf] at hb
  split at hb
  · rename_i m hM
    split at hb
    · exact absurd hb (by decide)
    · split at hb
      · rename_i h95 h85
        exact ⟨m, hM, h85, lt_of_not_le h95⟩
      · exact absurd hb (by decide)
  · exact absurd hb (by decide)

/-- A `new` tag means `find_match` found no match: the low-confidence branch
of the categorizer is unreachable because every returned match has
confidence at least `REVIEW_THRESHOLD`. -/
theorem bucketOf_new_inv (sim : String → String → ℚ)
    (pool : List DatabaseCandidate) (c : Candidate)
    (hb : bucketOf sim pool c = "new") :
    (find_match sim pool c).matched = none := by
  simp only [bucketOf] at hb
  split at hb
  · rename_i m hM
    split at hb
    · exact absurd hb (by decide)
    · split at hb
      · exact absurd hb (by decide)
      · rename_i h95 h85
        exact absurd (find_match_conf_ge sim pool c m hM) h85
  · rename_i hM
    exact hM

theorem bucketOf_of_update (sim : String → String → ℚ)
    (pool : List DatabaseCandidate) (c : Candidate) (m : DatabaseCandidate)
    (hM : (find_match sim pool c).matched = some m)
    (h95 : HIGH_CONFIDENCE_THRESHOLD ≤ (find_match sim pool c).confidence) :
    bucketOf sim pool c = "update" := by
  simp only [bucketOf]
  rw [hM]
  dsimp only
  rw [if_pos h95]

theorem bucketOf_of_review (sim : String → String → ℚ)
    (pool : List DatabaseCandidate) (c : Candidate) (m : DatabaseCandidate)
    (hM : (find_match sim pool c).matched = some m)
    (h95 : ¬HIGH_CONFIDENCE_THRESHOLD ≤ (find_match sim pool c).confidence)
    (h85 : REVIEW_THRESHOLD ≤ (find_match sim pool c).confidence) :
    bucketOf sim pool c = "review" := by
  simp only [bucketOf]
  rw [hM]
  dsimp only
  rw [if_neg h95, if_pos h85]

theorem bucketOf_of_none (sim : String → String → ℚ)
    (pool : List DatabaseCandidate) (c : Candidate)
    (hM : (find_match sim pool c).matched = none) :
    bucketOf sim pool c = "new" := by
  simp only [bucketOf]
  rw [hM]

theorem itemOf_mem_update (sim : String → String → ℚ)
    (pool : List DatabaseCandidate) (batch : List Candidate) (c : Candidate)
    (hc : c ∈ batch) (hb : bucketOf sim pool c = "update") :
    itemOf sim pool c ∈ (process_candidates sim pool batch).update := by
  rw [process_eq]
  exact List.mem_map_of_mem _ (List.mem_filter.mpr ⟨hc, by simp [hb]⟩)

theorem itemOf_mem_review (sim : String → String → ℚ)
    (pool : List DatabaseCandidate) (batch : List Candidate) (c : Candidate)
    (hc : c ∈ batch) (hb : bucketOf sim pool c = "review") :
    itemOf sim pool c ∈ (process_candidates sim pool batch).review := by
  rw [process_eq]
  exact List.mem_map_of_mem _ (List.mem_filter.mpr ⟨hc, by simp [hb]⟩)

theorem itemOf_mem_new (sim : String → String → ℚ)
    (pool : List DatabaseCandidate) (batch : List Candidate) (c : Candidate)
    (hc : c ∈ batch) (hb : bucketOf sim pool c = "new") :
    itemOf sim pool c ∈ (process_candidates sim pool batch).new := by
  rw [process_eq]
  exact List.mem_map_of_mem _ (List.mem_filter.mpr ⟨hc, by simp [hb]⟩)

theorem mem_update_conf (sim : String → String → ℚ)
    (pool : List DatabaseCandidate) (batch : List Candidate) (item : ProcessedItem)
    (h : item ∈ (process_candidates sim pool batch).update) :
    ∃ mi, item.match_info = some mi ∧ HIGH_CONFIDENCE_THRESHOLD ≤ mi.confidence := by
  rw [process_eq] at h
  simp only [List.mem_map, List.mem_filter, decide_eq_true_eq] at h
  obtain ⟨c, ⟨_, hb⟩, rfl⟩ := h
  obtain ⟨m, hM, h95⟩ := bucketOf_update_inv sim pool c hb
  exact ⟨_, mkItem_info_some c (find_match sim pool c) m hM, h95⟩

theorem mem_review_conf (sim : String → String → ℚ)
    (pool : List DatabaseCandidate) (batch : List Candidate) (item : ProcessedItem)
    (h : item ∈ (process_candidates sim pool batch).review) :
    ∃ mi, item.match_info = some mi ∧ REVIEW_THRESHOLD ≤ mi.confidence ∧
      mi.confidence < HIGH_CONFIDENCE_THRESHOLD := by
  rw [process_eq] at h
  simp only [List.mem_map, List.mem_filter, decide_eq_true_eq] at h
  obtain ⟨c, ⟨_, hb⟩, rfl⟩ := h
  obtain ⟨m, hM, h85, h95⟩ := bucketOf_review_inv sim pool c hb
  exact ⟨_, mkItem_info_some c (find_match sim pool c) m hM, h85, h95⟩

theorem mem_new_info (sim : String → String → ℚ)
    (pool : List DatabaseCandidate) (batch : List Candidate) (item : ProcessedItem)
    (h : item ∈ (process_candidates sim pool batch).new) :
    item.match_info = none := by
  rw [process_eq] at h
  simp only [List.mem_map, List.mem_filter, decide_eq_true_eq] at h
  obtain ⟨c, ⟨_, hb⟩, rfl⟩ := h
  exact mkItem_info_none c (find_match sim pool c) (bucketOf_new_inv sim pool c hb)

theorem eraseExt_full_name (e : DatabaseCandidate) :
    (eraseExt e).full_name = e.full_name := rfl

theorem eraseExt_election_year (e : DatabaseCandidate) :
    (eraseExt e).election_year = e.election_year := rfl

theorem eraseExt_office_name (e : DatabaseCandidate) :
    (eraseExt e).office_name = e.office_name := rfl

theorem eraseExt_last_name (e : DatabaseCandidate) :
    (eraseExt e).last_name = e.last_name := rfl

theorem eraseExt_first_name (e : DatabaseCandidate) :
    (eraseExt e).first_name = e.first_name := rfl

theorem party_match_val_eraseExt (cparty : String) (e : DatabaseCandidate) :
    party_match_val cparty (eraseExt e) = party_match_val cparty e := rfl

theorem mbnoCombined_eraseExt (sim : String → String → ℚ)
    (cname coffice cparty : String) (e : DatabaseCandidate) :
    mbnoCombined sim cname coffice cparty (eraseExt e) =
      mbnoCombined sim cname coffice cparty e := rfl

theorem mbfnCombined_eraseExt (sim : String → String → ℚ) (cfirst clast : String)
    (cdistrict : Option String) (clevel : String) (e : DatabaseCandidate) :
    mbfnCombined sim cfirst clast cdistrict clevel (eraseExt e) =
      mbfnCombined sim cfirst clast cdistrict clevel e := rfl

theorem mbnoLoop_eraseExt (sim : String → String → ℚ) (cname coffice : String)
    (cyear : Option Nat) (cparty : String) :
    ∀ (l : List DatabaseCandidate) (best : Option DatabaseCandidate) (s : ℚ),
      mbnoLoop sim cname coffice cyear cparty (l.map eraseExt) (best.map eraseExt) s =
        (mbnoLoop sim cname coffice cyear cparty l best s).map
          (fun p => (eraseExt p.1, p.2)) := by
  intro l
  induction l with
  | nil =>
    intro best s
    cases best with
    | none => rfl
    | some b =>
      by_cases h : REVIEW_THRESHOLD ≤ s
      · simp [mbnoLoop, h]
      · simp [mbnoLoop, h]
  | cons e rest ih =>
    intro best s
    simp only [List.map_cons, mbnoLoop, eraseExt_full_name, eraseExt_election_year,
      eraseExt_office_name, party_match_val_eraseExt, mbnoCombined_eraseExt]
    by_cases h1 : natTruthy cyear ∧ natTruthy e.election_year ∧ cyear ≠ e.election_year
    · rw [if_pos h1, if_pos h1]
      exact ih best s
    · rw [if_neg h1, if_neg h1]
      by_cases h2 : sim cname (normalize_string e.full_name) < 70
      · rw [if_pos h2, if_pos h2]
        exact ih best s
      · rw [if_neg h2, if_neg h2]
        by_cases h3 : sim cname (normalize_string e.full_name) = 100 ∧
            sim coffice (normalize_opt e.office_name) = 100 ∧
            party_match_val cparty e = 1
        · rw [if_pos h3, if_pos h3]
          rfl
        · rw [if_neg h3, if_neg h3]
          by_cases h4 : mbnoCombined sim cname coffice cparty e > s
          · rw [if_pos h4, if_pos h4]
            exact ih (some e) (mbnoCombined sim cname coffice cparty e)
          · rw [if_neg h4, if_neg h4]
            exact ih best s

theorem mbfnLoop_eraseExt (sim : String → String → ℚ) (cfirst clast : String)
    (cdistrict : Option String) (clevel : String) :
    ∀ (l : List DatabaseCandidate) (best : Option DatabaseCandidate) (s : ℚ),
      mbfnLoop sim cfirst clast cdistrict clevel (l.map eraseExt) (best.map eraseExt) s =
        (mbfnLoop sim cfirst clast cdistrict clevel l best s).map
          (fun p => (eraseExt p.1, p.2)) := by
  intro l
  induction l with
  | nil =>
    intro best s
    cases best with
    | none => rfl
    | some b =>
      by_cases h : REVIEW_THRESHOLD ≤ s
      · simp [mbfnLoop, h]
      · simp [mbfnLoop, h]
  | cons e rest ih =>
    intro best s
    simp only [List.map_cons, mbfnLoop, eraseExt_last_name, mbfnCombined_eraseExt]
    by_cases h1 : normalize_opt e.last_name = ""
    · rw [if_pos h1, if_pos h1]
      exact ih best s
    · rw [if_neg h1, if_neg h1]
      by_cases h2 : sim clast (normalize_opt e.last_name) < 85
      · rw [if_pos h2, if_pos h2]
        exact ih best s
      · rw [if_neg h2, if_neg h2]
        by_cases h3 : mbfnCombined sim cfirst clast cdistrict clevel e > s
        · rw [if_pos h3, if_pos h3]
          exact ih (some e) (mbfnCombined sim cfirst clast cdistrict clevel e)
        · rw [if_neg h3, if_neg h3]
          exact ih best s

theorem match_by_name_and_office_eraseExt (sim : String → String → ℚ)
    (pool : List DatabaseCandidate) (cand : Candidate) :
    match_by_name_and_office sim (pool.map eraseExt) cand =
      (match_by_name_and_office sim pool cand).map (fun p => (eraseExt p.1, p.2)) :=
  mbnoLoop_eraseExt sim _ _ _ _ pool none 0

theorem match_by_fuzzy_name_eraseExt (sim : String → String → ℚ)
    (pool : List DatabaseCandidate) (cand : Candidate) :
    match_by_fuzzy_name sim (pool.map eraseExt) cand =
      (match_by_fuzzy_name sim pool cand).map (fun p => (eraseExt p.1, p.2)) := by
  unfold match_by_fuzzy_name
  by_cases h : normalize_opt cand.last_name = ""
  · rw [if_pos h, if_pos h]
    rfl
  · rw [if_neg h, if_neg h]
    exact mbfnLoop_eraseExt sim _ _ _ _ pool none 0

/-- Pool-side `external_ids` never influence `find_match`: erasing them
from every pool candidate leaves confidence and method unchanged and maps
the matched candidate through the erasure. -/
theorem find_match_eraseExt (sim : String → String → ℚ)
    (pool : List DatabaseCandidate) (cand : Candidate) :
    find_match sim (pool.map eraseExt) cand =
      { matched := ((find_match sim pool cand).matched).map eraseExt,
        confidence := (find_match sim pool cand).confidence,
        method := (find_match sim pool cand).method } := by
  unfold find_match
  simp only [match_by_external_id, match_by_name_and_office_eraseExt,
    match_by_fuzzy_name_eraseExt]
  cases hB : match_by_name_and_office sim pool cand with
  | some p =>
    obtain ⟨b, cb⟩ := p
    simp only [Option.map_some']
    by_cases h95 : HIGH_CONFIDENCE_THRESHOLD ≤ cb
    · rw [if_pos h95, if_pos h95]
      rfl
    · rw [if_neg h95, if_neg h95]
      cases hC : match_by_fuzzy_name sim pool cand with
      | some q =>
        obtain ⟨f, cf⟩ := q
        simp only [Option.map_some']
        by_cases hgt : cb > cf
        · rw [if_pos hgt, if_pos hgt]
          rfl
        · rw [if_neg hgt, if_neg hgt]
          rfl
      | none =>
        simp only [Option.map_none']
        rfl
  | none =>
    simp only [Option.map_none']
    cases hC : match_by_fuzzy_name sim pool cand with
    | some q =>
      obtain ⟨f, cf⟩ := q
      simp only [Option.map_some']
    | none => rfl

/-- `find_match` only ever reports one of the four non-external methods. -/
theorem find_match_method_cases (sim : String → String → ℚ)
    (pool : List DatabaseCandidate) (cand : Candidate) :
    (find_match sim pool cand).method = "name_office_exact" ∨
    (find_match sim pool cand).method = "name_office" ∨
    (find_match sim pool cand).method = "fuzzy_name" ∨
    (find_match sim pool cand).method = "no_match" := by
  unfold find_match
  simp only [match_by_external_id]
  cases hB : match_by_name_and_office sim pool cand with
  | some p =>
    obtain ⟨b, cb⟩ := p
    dsimp only
    by_cases h95 : HIGH_CONFIDENCE_THRESHOLD ≤ cb
    · rw [if_pos h95]
      left; rfl
    · rw [if_neg h95]
      cases hC : match_by_fuzzy_name sim pool cand with
      | some q =>
        obtain ⟨f, cf⟩ := q
        dsimp only
        by_cases hgt : cb > cf
        · rw [if_pos hgt]
          right; left; rfl
        · rw [if_neg hgt]
          right; right; left; rfl
      | none => right; left; rfl
  | none =>
    dsimp only
    cases hC : match_by_fuzzy_name sim pool cand with
    | some q =>
      obtain ⟨f, cf⟩ := q
      right; right; left; rfl
    | none => right; right; right; rfl

/-- If the two normalized parties agree, the party factor is 1 (whether or
not they are nonempty). -/
theorem party_match_val_eq_one_of_norm_eq (cparty : String) (e : DatabaseCandidate)
    (h : normalize_opt e.party = cparty) :
    party_match_val cparty e = 1 := by
  unfold party_match_val
  split
  · rw [if_neg]
    intro hne
    exact hne h.symm
  · rfl

/-- The Strategy B scan never returns a pool entry whose name similarity
with the incoming candidate is below the hard floor 70. -/
theorem mbnoLoop_ne_of_low (sim : String → String → ℚ) (cname coffice : String)
    (cyear : Option Nat) (cparty : String) (e : DatabaseCandidate)
    (hlow : sim cname (normalize_string e.full_name) < 70) :
    ∀ (l : List DatabaseCandidate) (best : Option DatabaseCandidate) (s : ℚ)
      (b : DatabaseCandidate) (c : ℚ),
      (∀ b0, best = some b0 → b0 ≠ e) →
      mbnoLoop sim cname coffice cyear cparty l best s = some (b, c) →
      b ≠ e := by
  intro l
  induction l with
  | nil =>
    intro best s b c hinv h
    cases best with
    | none => simp [mbnoLoop] at h
    | some b0 =>
      simp only [mbnoLoop] at h
      split at h
      · simp only [Option.some.injEq, Prod.mk.injEq] at h
        rw [← h.1]
        exact hinv b0 rfl
      · simp at h
  | cons x rest ih =>
    intro best s b c hinv h
    simp only [mbnoLoop] at h
    split at h
    · exact ih best s b c hinv h
    · split at h
      · exact ih best s b c hinv h
      · rename_i hskip hfloor
        have hxe : x ≠ e := by
          intro hcon
          rw [hcon] at hfloor
          exact hfloor hlow
        split at h
        · simp only [Option.some.injEq, Prod.mk.injEq] at h
          rw [← h.1]
          exact hxe
        · split at h
          · refine ih _ _ b c ?_ h
            intro b0 hb0
            injection hb0 with hb0
            rw [← hb0]
            exact hxe
          · exact ih best s b c hinv h

/-- Strategy B, on a pool containing exactly one candidate with identical
name and office but a conflicting specified party, returns no match: the
party factor halves the combined score to 45, below `REVIEW_THRESHOLD`
(when the year filter skips the candidate there is no match either). -/
theorem mbno_single_party_mismatch (sim : String → String → ℚ)
    (cand : Candidate) (e : DatabaseCandidate)
    (hn : sim (normalize_string cand.full_name) (normalize_string e.full_name) = 100)
    (ho : sim (normalize_string cand.office_name) (normalize_opt e.office_name) = 100)
    (hp1 : normalize_opt cand.party ≠ "")
    (hp2 : strTruthy e.party)
    (hp3 : normalize_opt cand.party ≠ normalize_opt e.party) :
    match_by_name_and_office sim [e] cand = none := by
  have hpm : party_match_val (normalize_opt cand.party) e = 1 / 2 := by
    unfold party_match_val
    rw [if_pos ⟨hp1, hp2⟩, if_pos hp3]
  have hcomb : mbnoCombined sim (normalize_string cand.full_name)
      (normalize_string cand.office_name) (normalize_opt cand.party) e = 45 := by
    unfold mbnoCombined
    rw [hn, ho, hpm]
    norm_num
  unfold match_by_name_and_office
  simp only [mbnoLoop]
  by_cases h1 : natTruthy cand.election_year ∧ natTruthy e.election_year ∧
      cand.election_year ≠ e.election_year
  · rw [if_pos h1]
  · rw [if_neg h1, hn]
    rw [if_neg (by norm_num : ¬((100 : ℚ) < 70))]
    rw [ho, hpm]
    rw [if_neg (by norm_num : ¬((100 : ℚ) = 100 ∧ (100 : ℚ) = 100 ∧ (1 / 2 : ℚ) = 1))]
    rw [hcomb]
    rw [if_pos (by norm_num : (45 : ℚ) > 0)]
    simp [mbnoLoop, REVIEW_THRESHOLD, show ¬((85 : ℚ) ≤ 45) from by norm_num]

theorem mbno_tie_eval :
    match_by_name_and_office fuzzRatioQ [tieE] tieCand = some (tieE, 87) := by
  norm_num [match_by_name_and_office, mbnoLoop, mbnoCombined, tieCand, tieE,
    party_match_val, fuzzRatioQ, normalize_opt,
    show normalize_string "annadoe" = "annadoe" from by decide,
    show normalize_string "abcdefghij" = "abcdefghij" from by decide,
    show normalize_string "abcdefghiz" = "abcdefghiz" from by decide,
    show fuzzRatioN "annadoe" "annadoe" = 100 from by decide,
    show fuzzRatioN "abcdefghij" "abcdefghiz" = 90 from by decide,
    natTruthy, strTruthy, EXACT_MATCH_THRESHOLD, REVIEW_THRESHOLD]

theorem mbfn_tie_eval :
    match_by_fuzzy_name fuzzRatioQ [tieE] tieCand = some (tieE, 87) := by
  norm_num [match_by_fuzzy_name, mbfnLoop, mbfnCombined, first_name_score_val,
    context_score_val, tieCand, tieE, fuzzRatioQ, normalize_opt,
    show normalize_string "abcdefghij" = "abcdefghij" from by decide,
    show normalize_string "abcdefgxyz" = "abcdefgxyz" from by decide,
    show normalize_string "qrstuvwxyz" = "qrstuvwxyz" from by decide,
    show normalize_string "qrstuvwxyk" = "qrstuvwxyk" from by decide,
    show normalize_string "local" = "local" from by decide,
    show isSubstrOf "7" "sen7a" = true from by decide,
    show fuzzRatioN "qrstuvwxyz" "qrstuvwxyk" = 90 from by decide,
    show fuzzRatioN "abcdefghij" "abcdefgxyz" = 70 from by decide,
    show ¬(("qrstuvwxyz" : String) = "") from by decide,
    show ¬(("qrstuvwxyk" : String) = "") from by decide,
    show ¬(("abcdefghij" : String) = "") from by decide,
    show ¬(("abcdefgxyz" : String) = "") from by decide,
    show ¬(("7" : String) = "") from by decide,
    show ¬(("sen7a" : String) = "") from by decide,
    show ¬(("abcdefghij" : String).length = 1 ∨ ("abcdefgxyz" : String).length = 1)
      from by decide,
    natTruthy, strTruthy, REVIEW_THRESHOLD]

theorem fm_tie_eval :
    find_match fuzzRatioQ [tieE] tieCand =
      { matched := some tieE, confidence := 87, method := "fuzzy_name" } := by
  have h := find_match_both fuzzRatioQ [tieE] tieCand tieE tieE 87 87 mbno_tie_eval
    (by norm_num [HIGH_CONFIDENCE_THRESHOLD]) mbfn_tie_eval
  rw [h, if_neg (by norm_num : ¬((87 : ℚ) > 87))]

theorem fm_jane_eval :
    find_match fuzzRatioQ [janeE] janeCand =
      { matched := some janeE, confidence := EXACT_MATCH_THRESHOLD,
        method := "name_office_exact" } := by
  decide

theorem fm_janeOld_eval :
    find_match fuzzRatioQ [janeEOld] janeCand =
      { matched := none, confidence := 0, method := "no_match" } := by
  decide

theorem mbfn_maryX_eval :
    match_by_fuzzy_name fuzzRatioQ [maryXE] maryXCand = some (maryXE, 100) := by
  norm_num [match_by_fuzzy_name, mbfnLoop, mbfnCombined, first_name_score_val,
    context_score_val, maryXCand, maryXE, fuzzRatioQ, normalize_opt,
    show normalize_string "mary" = "mary" from by decide,
    show normalize_string "lee" = "lee" from by decide,
    show normalize_string "local" = "local" from by decide,
    show isSubstrOf "3" "county:3" = true from by decide,
    show fuzzRatioN "mary" "mary" = 100 from by decide,
    show fuzzRatioN "lee" "lee" = 100 from by decide,
    show ¬(("mary" : String) = "") from by decide,
    show ¬(("lee" : String) = "") from by decide,
    show ¬(("3" : String) = "") from by decide,
    show ¬(("county:3" : String) = "") from by decide,
    show ¬(("mary" : String).length = 1 ∨ ("mary" : String).length = 1) from by decide,
    natTruthy, strTruthy, REVIEW_THRESHOLD]

theorem mbno_maryX_none :
    match_by_name_and_office fuzzRatioQ [maryXE] maryXCand = none :=
  mbno_single_party_mismatch fuzzRatioQ maryXCand maryXE (by decide) (by decide)
    (by decide) (by decide) (by decide)

theorem fm_maryX_eval :
    find_match fuzzRatioQ [maryXE] maryXCand =
      { matched := some maryXE, confidence := 100, method := "fuzzy_name" } := by
  unfold find_match
  simp only [match_by_external_id, mbno_maryX_none, mbfn_maryX_eval]

theorem mbno_sub_eval :
    match_by_name_and_office fuzzRatioQ [lowE, goodE] subCand = some (goodE, 87) := by
  norm_num [match_by_name_and_office, mbnoLoop, mbnoCombined, subCand, lowE, goodE,
    party_match_val, fuzzRatioQ, normalize_opt,
    show normalize_string "annadoe" = "annadoe" from by decide,
    show normalize_string "zzzz" = "zzzz" from by decide,
    show normalize_string "abcdefghij" = "abcdefghij" from by decide,
    show normalize_string "abcdefghiz" = "abcdefghiz" from by decide,
    show fuzzRatioN "annadoe" "zzzz" = 0 from by decide,
    show fuzzRatioN "annadoe" "annadoe" = 100 from by decide,
    show fuzzRatioN "abcdefghij" "abcdefghiz" = 90 from by decide,
    natTruthy, strTruthy, EXACT_MATCH_THRESHOLD, REVIEW_THRESHOLD]

/-- Claim C1 (corrected).  When Strategy B (below the high-confidence
short-circuit) and Strategy C both produce a candidate, `find_match`
compares with a strict `match[1] > fuzzy_match[1]`: Strategy B is selected
only when its score is strictly greater; on an exact tie the *Strategy C*
result is selected and the returned method is `fuzzy_name` (the original
claim asserted that ties favor B with method `name_office`). -/
theorem claim_C1 (sim : String → String → ℚ) (pool : List DatabaseCandidate)
    (cand : Candidate) (b f : DatabaseCandidate) (cb cf : ℚ)
    (hB : match_by_name_and_office sim pool cand = some (b, cb))
    (h95 : cb < HIGH_CONFIDENCE_THRESHOLD)
    (hC : match_by_fuzzy_name sim pool cand = some (f, cf)) :
    (cb = cf → find_match sim pool cand =
      { matched := some f, confidence := cf, method := "fuzzy_name" }) ∧
    (cf < cb → find_match sim pool cand =
      { matched := some b, confidence := cb, method := "name_office" }) ∧
    (cb < cf → find_match sim pool cand =
      { matched := some f, confidence := cf, method := "fuzzy_name" }) := by
  have h := find_match_both sim pool cand b f cb cf hB h95 hC
  refine ⟨?_, ?_, ?_⟩
  · intro he
    rw [h, if_neg ?_]
    intro hcon
    rw [he] at hcon
    exact lt_irrefl cf hcon
  · intro hlt
    rw [h, if_pos hlt]
  · intro hlt
    rw [h, if_neg (lt_asymm hlt)]

/-- Claim C1 counterexample: on `tieCand` against the one-entry pool
`[tieE]`, Strategies B and C both score exactly 87 (at or above
`REVIEW_THRESHOLD`, below the short-circuit), yet `find_match` reports
method `fuzzy_name`, not `name_office` as the claim states. -/
theorem claim_C1_counterexample :
    match_by_name_and_office fuzzRatioQ [tieE] tieCand = some (tieE, 87) ∧
    match_by_fuzzy_name fuzzRatioQ [tieE] tieCand = some (tieE, 87) ∧
    REVIEW_THRESHOLD ≤ (87 : ℚ) ∧ (87 : ℚ) < HIGH_CONFIDENCE_THRESHOLD ∧
    (find_match fuzzRatioQ [tieE] tieCand).method = "fuzzy_name" ∧
    (find_match fuzzRatioQ [tieE] tieCand).method ≠ "name_office" := by
  refine ⟨mbno_tie_eval, mbfn_tie_eval, by norm_num [REVIEW_THRESHOLD],
    by norm_num [HIGH_CONFIDENCE_THRESHOLD], ?_, ?_⟩
  · rw [fm_tie_eval]
  · rw [fm_tie_eval]
    decide

/-- Claim C1 witness: the amended tie rule applied at the concrete tie. -/
theorem claim_C1_witness :
    find_match fuzzRatioQ [tieE] tieCand =
      { matched := some tieE, confidence := 87, method := "fuzzy_name" } :=
  (claim_C1 fuzzRatioQ [tieE] tieCand tieE tieE 87 87 mbno_tie_eval
    (by norm_num [HIGH_CONFIDENCE_THRESHOLD]) mbfn_tie_eval).1 rfl

/-- Claim C2 (corrected).  Amended: the pool candidate must additionally be
compatible with the incoming election year (the code skips year-mismatched
candidates before any similarity is computed), and the returned candidate
is the first such candidate in pool order.  Under those hypotheses
`find_match` returns it with confidence exactly `EXACT_MATCH_THRESHOLD` and
method `name_office_exact`; the scan ignores everything after it (the
conclusion holds for every `post`). -/
theorem claim_C2 (sim : String → String → ℚ) (cand : Candidate)
    (pre : List DatabaseCandidate) (e : DatabaseCandidate)
    (post : List DatabaseCandidate)
    (hpre : ∀ x ∈ pre, ¬exactHit sim cand x)
    (hyear : ¬(natTruthy cand.election_year ∧ natTruthy e.election_year ∧
      cand.election_year ≠ e.election_year))
    (hname : sim (normalize_string cand.full_name) (normalize_string e.full_name) = 100)
    (hoffice : sim (normalize_string cand.office_name) (normalize_opt e.office_name) = 100)
    (hparty : party_match_val (normalize_opt cand.party) e = 1) :
    find_match sim (pre ++ e :: post) cand =
      { matched := some e, confidence := EXACT_MATCH_THRESHOLD,
        method := "name_office_exact" } :=
  find_match_exact_first sim cand pre e post hpre ⟨hyear, hname, hoffice, hparty⟩

/-- Claim C2 counterexample: `janeEOld` has full-name similarity 100,
office similarity 100 and a compatible party with `janeCand`, yet
`find_match` returns no match because the 2024 pool entry is skipped by the
election-year filter (2026 vs 2024) — the claim omitted the year
condition. -/
theorem claim_C2_counterexample :
    fuzzRatioQ (normalize_string janeCand.full_name)
      (normalize_string janeEOld.full_name) = 100 ∧
    fuzzRatioQ (normalize_string janeCand.office_name)
      (normalize_opt janeEOld.office_name) = 100 ∧
    party_match_val (normalize_opt janeCand.party) janeEOld = 1 ∧
    find_match fuzzRatioQ [janeEOld] janeCand =
      { matched := none, confidence := 0, method := "no_match" } :=
  ⟨by decide, by decide, by decide, fm_janeOld_eval⟩

/-- Claim C2 witness: the amended claim applied at the year-compatible
concrete instance. -/
theorem claim_C2_witness :
    find_match fuzzRatioQ [janeE] janeCand =
      { matched := some janeE, confidence := EXACT_MATCH_THRESHOLD,
        method := "name_office_exact" } :=
  claim_C2 fuzzRatioQ janeCand [] janeE [] (by simp) (by decide) (by decide)
    (by decide) (by decide)

/-- Claim C3 (confirmed).  For a candidate of the batch with a match
result, membership in `update` is equivalent to confidence at least
`HIGH_CONFIDENCE_THRESHOLD` (= 95, the boundary value 95 goes to `update`),
membership in `review` is equivalent to `REVIEW_THRESHOLD ≤ confidence <
HIGH_CONFIDENCE_THRESHOLD` (the boundary 85 goes to `review`), and a
candidate with no match result is placed in `new`. -/
theorem claim_C3 (sim : String → String → ℚ) (pool : List DatabaseCandidate)
    (batch : List Candidate) (cand : Candidate) (hc : cand ∈ batch) :
    ((find_match sim pool cand).matched = none →
      { candidate := cand, match_info := none } ∈
        (process_candidates sim pool batch).new) ∧
    (∀ m, (find_match sim pool cand).matched = some m →
      ((HIGH_CONFIDENCE_THRESHOLD ≤ (find_match sim pool cand).confidence ↔
        itemOf sim pool cand ∈ (process_candidates sim pool batch).update) ∧
       ((REVIEW_THRESHOLD ≤ (find_match sim pool cand).confidence ∧
         (find_match sim pool cand).confidence < HIGH_CONFIDENCE_THRESHOLD) ↔
        itemOf sim pool cand ∈ (process_candidates sim pool batch).review))) := by
  constructor
  · intro hM
    have hitem : itemOf sim pool cand = { candidate := cand, match_info := none } := by
      unfold itemOf mkItem
      rw [hM]
    rw [← hitem]
    exact itemOf_mem_new sim pool batch cand hc (bucketOf_of_none sim pool cand hM)
  · intro m hM
    constructor
    · constructor
      · intro h95
        exact itemOf_mem_update sim pool batch cand hc
          (bucketOf_of_update sim pool cand m hM h95)
      · intro hmem
        obtain ⟨mi, hmi, h95⟩ := mem_update_conf sim pool batch _ hmem
        have hinfo : (itemOf sim pool cand).match_info = some
            { candidate_id := m.id, confidence := (find_match sim pool cand).confidence,
              method := (find_match sim pool cand).method, existing_name := m.full_name } :=
          mkItem_info_some cand (find_match sim pool cand) m hM
        rw [hinfo] at hmi
        obtain rfl := (Option.some.inj hmi).symm
        exact h95
    · constructor
      · intro ⟨h85, h95⟩
        exact itemOf_mem_review sim pool batch cand hc
          (bucketOf_of_review sim pool cand m hM (not_le.mpr h95) h85)
      · intro hmem
        obtain ⟨mi, hmi, h85, h95⟩ := mem_review_conf sim pool batch _ hmem
        have hinfo : (itemOf sim pool cand).match_info = some
            { candidate_id := m.id, confidence := (find_match sim pool cand).confidence,
              method := (find_match sim pool cand).method, existing_name := m.full_name } :=
          mkItem_info_some cand (find_match sim pool cand) m hM
        rw [hinfo] at hmi
        obtain rfl := (Option.some.inj hmi).symm
        exact ⟨h85, h95⟩

/-- Claim C3 witness: the exact-match candidate (confidence 100 ≥ 95) lands
in the `update` bucket. -/
theorem claim_C3_witness :
    itemOf fuzzRatioQ [janeE] janeCand ∈
      (process_candidates fuzzRatioQ [janeE] [janeCand]).update := by
  have h := (claim_C3 fuzzRatioQ [janeE] [janeCand] janeCand (by decide)).2 janeE
    (by rw [fm_jane_eval])
  exact h.1.mp (by rw [fm_jane_eval]; norm_num [EXACT_MATCH_THRESHOLD,
    HIGH_CONFIDENCE_THRESHOLD])

/-- Claim C4 (confirmed).  A non-null matched candidate always comes with
confidence at least `REVIEW_THRESHOLD`, so the Categorizer's branch filing
a matched candidate below `REVIEW_THRESHOLD` into `new` is unreachable:
every item of the `new` bucket carries no `match_info`. -/
theorem claim_C4 (sim : String → String → ℚ) (pool : List DatabaseCandidate) :
    (∀ cand m, (find_match sim pool cand).matched = some m →
      REVIEW_THRESHOLD ≤ (find_match sim pool cand).confidence) ∧
    (∀ (batch : List Candidate) (item : ProcessedItem),
      item ∈ (process_candidates sim pool batch).new → item.match_info = none) :=
  ⟨fun cand m h => find_match_conf_ge sim pool cand m h,
   fun batch item h => mem_new_info sim pool batch item h⟩

/-- Claim C4 witness: the concrete exact match has confidence ≥ 85. -/
theorem claim_C4_witness :
    REVIEW_THRESHOLD ≤ (find_match fuzzRatioQ [janeE] janeCand).confidence :=
  (claim_C4 fuzzRatioQ [janeE]).1 janeCand janeE (by rw [fm_jane_eval])

/-- Claim C5 (confirmed).  With similarity scores in [0, 100], any Strategy
B result is either at most 90 (combined-score formula: weights 0.6 + 0.3
with party factor at most 1) or exactly `EXACT_MATCH_THRESHOLD` = 100 via
the exact-match shortcut; hence only the shortcut can reach 100. -/
theorem claim_C5 (sim : String → String → ℚ)
    (h0 : ∀ a b, 0 ≤ sim a b) (h100 : ∀ a b, sim a b ≤ 100)
    (pool : List DatabaseCandidate) (cand : Candidate)
    (b : DatabaseCandidate) (c : ℚ)
    (h : match_by_name_and_office sim pool cand = some (b, c)) :
    c ≤ 90 ∨ c = EXACT_MATCH_THRESHOLD :=
  mbnoLoop_bound sim h0 h100 _ _ _ _ pool none 0 b c le_rfl (by norm_num) h

/-- Claim C5 witness: the concrete Strategy B score 87 obeys the bound. -/
theorem claim_C5_witness : (87 : ℚ) ≤ 90 ∨ (87 : ℚ) = EXACT_MATCH_THRESHOLD :=
  claim_C5 fuzzRatioQ fuzzRatioQ_nonneg fuzzRatioQ_le_100 [tieE] tieCand tieE 87
    mbno_tie_eval

/-- Claim C6 (corrected).  Amended: additionally the incoming record has no
last name (as in the spec's scenario, which populates only `full_name`,
`office_name`, `party`); otherwise Strategy C can still match the pool
entry.  Then with identical names and offices but conflicting specified
parties the shortcut fails (`party_match = 1/2`), Strategy B stays below
`REVIEW_THRESHOLD`, and the candidate is bucketed `new`. -/
theorem claim_C6 (sim : String → String → ℚ) (cand : Candidate)
    (e : DatabaseCandidate)
    (hlast : normalize_opt cand.last_name = "")
    (hn : sim (normalize_string cand.full_name) (normalize_string e.full_name) = 100)
    (ho : sim (normalize_string cand.office_name) (normalize_opt e.office_name) = 100)
    (hp1 : normalize_opt cand.party ≠ "")
    (hp2 : strTruthy e.party)
    (hp3 : normalize_opt cand.party ≠ normalize_opt e.party) :
    party_match_val (normalize_opt cand.party) e = 1 / 2 ∧
    match_by_name_and_office sim [e] cand = none ∧
    find_match sim [e] cand = { matched := none, confidence := 0, method := "no_match" } ∧
    process_candidates sim [e] [cand] =
      { new := [{ candidate := cand, match_info := none }],
        update := [], review := [], skip := [] } := by
  have hpm : party_match_val (normalize_opt cand.party) e = 1 / 2 := by
    unfold party_match_val
    rw [if_pos ⟨hp1, hp2⟩, if_pos hp3]
  have hB := mbno_single_party_mismatch sim cand e hn ho hp1 hp2 hp3
  have hC : match_by_fuzzy_name sim [e] cand = none := by
    unfold match_by_fuzzy_name
    rw [if_pos hlast]
  have hfm : find_match sim [e] cand =
      { matched := none, confidence := 0, method := "no_match" } := by
    unfold find_match
    simp only [match_by_external_id, hB, hC]
  refine ⟨hpm, hB, hfm, ?_⟩
  simp only [process_candidates, hfm]
  rfl

/-- Claim C6 counterexample: with first/last names and district context
populated, the premises of the original claim hold (identical names and
offices, conflicting specified parties) but Strategy C matches the pool
entry at confidence 100, so `find_match` reports a match and the candidate
is not bucketed `new`. -/
theorem claim_C6_counterexample :
    fuzzRatioQ (normalize_string maryXCand.full_name)
      (normalize_string maryXE.full_name) = 100 ∧
    fuzzRatioQ (normalize_string maryXCand.office_name)
      (normalize_opt maryXE.office_name) = 100 ∧
    normalize_opt maryXCand.party ≠ "" ∧ strTruthy maryXE.party ∧
    normalize_opt maryXCand.party ≠ normalize_opt maryXE.party ∧
    find_match fuzzRatioQ [maryXE] maryXCand =
      { matched := some maryXE, confidence := 100, method := "fuzzy_name" } ∧
    (process_candidates fuzzRatioQ [maryXE] [maryXCand]).new = [] := by
  refine ⟨by decide, by decide, by decide, by decide, by decide, fm_maryX_eval, ?_⟩
  have hb : bucketOf fuzzRatioQ [maryXE] maryXCand = "update" :=
    bucketOf_of_update fuzzRatioQ [maryXE] maryXCand maryXE (by rw [fm_maryX_eval])
      (by rw [fm_maryX_eval]; norm_num [HIGH_CONFIDENCE_THRESHOLD])
  rw [process_eq]
  simp [hb]

/-- Claim C6 witness: the amended claim at the spec's own scenario (no
first/last names on the incoming side). -/
theorem claim_C6_witness :
    find_match fuzzRatioQ [maryE] maryCand =
      { matched := none, confidence := 0, method := "no_match" } ∧
    process_candidates fuzzRatioQ [maryE] [maryCand] =
      { new := [{ candidate := maryCand, match_info := none }],
        update := [], review := [], skip := [] } := by
  have h := claim_C6 fuzzRatioQ maryCand maryE (by decide) (by decide) (by decide)
    (by decide) (by decide) (by decide)
  exact ⟨h.2.2.1, h.2.2.2⟩

/-- Claim C7 (confirmed).  Re-ingestion is idempotent: when for every batch
candidate the pool holds an entry with identical normalized full name,
office and party and a matching-or-null election year, no candidate lands
in `new` or `review`; all land in `update` with confidence exactly
`EXACT_MATCH_THRESHOLD` via the exact-match shortcut. -/
theorem claim_C7 (sim : String → String → ℚ) (pool : List DatabaseCandidate)
    (batch : List Candidate)
    (hrefl : ∀ a, sim a a = 100)
    (hcov : ∀ cand ∈ batch, ∃ e ∈ pool,
      normalize_string e.full_name = normalize_string cand.full_name ∧
      normalize_opt e.office_name = normalize_string cand.office_name ∧
      normalize_opt e.party = normalize_opt cand.party ∧
      (e.election_year = cand.election_year ∨ e.election_year = none)) :
    (process_candidates sim pool batch).new = [] ∧
    (process_candidates sim pool batch).review = [] ∧
    (process_candidates sim pool batch).update.map (fun i => i.candidate) = batch ∧
    ∀ item ∈ (process_candidates sim pool batch).update, ∃ mi,
      item.match_info = some mi ∧ mi.confidence = EXACT_MATCH_THRESHOLD ∧
      mi.method = "name_office_exact" := by
  have hfm : ∀ cand ∈ batch, ∃ e, find_match sim pool cand =
      { matched := some e, confidence := EXACT_MATCH_THRESHOLD,
        method := "name_office_exact" } := by
    intro cand hc
    obtain ⟨e, hepool, h1, h2, h3, h4⟩ := hcov cand hc
    have hex : exactHit sim cand e := by
      refine ⟨?_, ?_, ?_, party_match_val_eq_one_of_norm_eq _ e h3⟩
      · rintro ⟨hcy, hey, hne⟩
        rcases h4 with h | h
        · exact hne h.symm
        · rw [h] at hey
          simp [natTruthy] at hey
      · rw [h1]
        exact hrefl _
      · rw [h2]
        exact hrefl _
    obtain ⟨e', _, heq⟩ := find_match_exact_exists sim pool cand ⟨e, hepool, hex⟩
    exact ⟨e', heq⟩
  have hbucket : ∀ cand ∈ batch, bucketOf sim pool cand = "update" := by
    intro cand hc
    obtain ⟨e', heq⟩ := hfm cand hc
    refine bucketOf_of_update sim pool cand e' (by rw [heq]) ?_
    rw [heq]
    norm_num [EXACT_MATCH_THRESHOLD, HIGH_CONFIDENCE_THRESHOLD]
  have hfilter : batch.filter (fun c => decide (bucketOf sim pool c = "update")) =
      batch := by
    apply List.filter_eq_self.mpr
    intro a ha
    simp [hbucket a ha]
  refine ⟨?_, ?_, ?_, ?_⟩
  · simp only [process_eq, List.map_eq_nil_iff]
    apply List.filter_eq_nil_iff.mpr
    intro a ha
    simp [hbucket a ha]
  · simp only [process_eq, List.map_eq_nil_iff]
    apply List.filter_eq_nil_iff.mpr
    intro a ha
    simp [hbucket a ha]
  · simp only [process_eq]
    rw [hfilter]
    exact map_candidate_itemOf sim pool batch
  · intro item hmem
    simp only [process_eq] at hmem
    rw [hfilter] at hmem
    obtain ⟨c, hc, rfl⟩ := List.mem_map.mp hmem
    obtain ⟨e', heq⟩ := hfm c hc
    have hinfo : (itemOf sim pool c).match_info = some
        { candidate_id := e'.id, confidence := (find_match sim pool c).confidence,
          method := (find_match sim pool c).method, existing_name := e'.full_name } :=
      mkItem_info_some c (find_match sim pool c) e' (by rw [heq])
    have hinfo2 : (itemOf sim pool c).match_info = some
        { candidate_id := e'.id, confidence := EXACT_MATCH_THRESHOLD,
          method := "name_office_exact", existing_name := e'.full_name } := by
      rw [hinfo, heq]
    exact ⟨_, hinfo2, rfl, rfl⟩

/-- Claim C7 witness: re-ingesting the singleton batch against its own
stored copy produces zero `new` entries and an `update` at confidence
100. -/
theorem claim_C7_witness :
    (process_candidates fuzzRatioQ [janeE] [janeCand]).new = [] ∧
    (process_candidates fuzzRatioQ [janeE] [janeCand]).update.map
      (fun i => i.candidate) = [janeCand] := by
  have h := claim_C7 fuzzRatioQ [janeE] [janeCand] fuzzRatioQ_self ?_
  · exact ⟨h.1, h.2.2.1⟩
  · intro cand hc
    have : cand = janeCand := by
      simpa using hc
    subst this
    exact ⟨janeE, by decide, by decide, by decide, by decide, by decide⟩

/-- Claim C8 (confirmed).  A pool candidate whose normalized full-name
similarity with the incoming candidate is below the hard floor 70 is never
returned by Strategy B, regardless of office similarity. -/
theorem claim_C8 (sim : String → String → ℚ) (pool : List DatabaseCandidate)
    (cand : Candidate) (e b : DatabaseCandidate) (c : ℚ)
    (hlow : sim (normalize_string cand.full_name) (normalize_string e.full_name) < 70)
    (h : match_by_name_and_office sim pool cand = some (b, c)) :
    b ≠ e :=
  mbnoLoop_ne_of_low sim _ _ _ _ e hlow pool none 0 b c
    (fun _b0 hb0 => Option.noConfusion hb0) h

/-- Claim C8 witness: despite `lowE` sharing the exact office name, the
scan returns `goodE`, not `lowE` (name similarity 0 < 70). -/
theorem claim_C8_witness :
    match_by_name_and_office fuzzRatioQ [lowE, goodE] subCand = some (goodE, 87) ∧
    goodE ≠ lowE :=
  ⟨mbno_sub_eval,
   claim_C8 fuzzRatioQ [lowE, goodE] subCand lowE goodE 87 (by decide) mbno_sub_eval⟩

/-- Claim C9 (confirmed).  `process_candidates` returns the four buckets
`new`/`update`/`review`/`skip` (the `Buckets` record has exactly these
fields); `skip` is always empty, each of the other three buckets lists, in
input order, exactly the batch candidates whose computed bucket tag matches,
and the three lengths sum to the batch length (each candidate appears in
exactly one bucket). -/
theorem claim_C9 (sim : String → String → ℚ) (pool : List DatabaseCandidate)
    (batch : List Candidate) :
    (process_candidates sim pool batch).skip = [] ∧
    (process_candidates sim pool batch).new.map (fun i => i.candidate) =
      batch.filter (fun c => decide (bucketOf sim pool c = "new")) ∧
    (process_candidates sim pool batch).update.map (fun i => i.candidate) =
      batch.filter (fun c => decide (bucketOf sim pool c = "update")) ∧
    (process_candidates sim pool batch).review.map (fun i => i.candidate) =
      batch.filter (fun c => decide (bucketOf sim pool c = "review")) ∧
    (process_candidates sim pool batch).new.length +
      (process_candidates sim pool batch).update.length +
      (process_candidates sim pool batch).review.length = batch.length := by
  refine ⟨?_, ?_, ?_, ?_, ?_⟩
  · simp [process_eq]
  · simp only [process_eq]
    exact map_candidate_itemOf sim pool _
  · simp only [process_eq]
    exact map_candidate_itemOf sim pool _
  · simp only [process_eq]
    exact map_candidate_itemOf sim pool _
  · simp only [process_eq, List.length_map]
    refine three_filter_length _ _ _ ?_ batch
    intro x
    rcases bucketOf_cases sim pool x with hb | hb | hb
    · left
      simp [hb]
    · right; left
      simp [hb]
    · right; right
      simp [hb]

/-- Claim C10 (confirmed).  `find_match` never reports method
`external_id` (Strategy A returns `None` unconditionally); the method is
always one of the four others, and erasing every pool candidate's
`external_ids` leaves confidence and method unchanged (the matched
candidate is the erased counterpart). -/
theorem claim_C10 (sim : String → String → ℚ) (pool : List DatabaseCandidate)
    (cand : Candidate) :
    ((find_match sim pool cand).method = "name_office_exact" ∨
     (find_match sim pool cand).method = "name_office" ∨
     (find_match sim pool cand).method = "fuzzy_name" ∨
     (find_match sim pool cand).method = "no_match") ∧
    (find_match sim pool cand).method ≠ "external_id" ∧
    find_match sim (pool.map eraseExt) cand =
      { matched := ((find_match sim pool cand).matched).map eraseExt,
        confidence := (find_match sim pool cand).confidence,
        method := (find_match sim pool cand).method } := by
  refine ⟨find_match_method_cases sim pool cand, ?_, find_match_eraseExt sim pool cand⟩
  intro hcon
  rcases find_match_method_cases sim pool cand with h | h | h | h <;> rw [h] at hcon <;>
    exact absurd hcon (by decide)
